import Mathlib

/-!
Verification of the smart-fs core against its specification.

Texts are embedded as `List Char` (JavaScript strings, one entry per UTF-16
unit in the sources' ASCII-only test space).  External collaborators (the
meriyah / Babel parsers, the JS `RegExp` engine, the source-map consumer and
the file system) are modelled as oracle inputs: each pure function of the
repository is translated directly from its TypeScript source, and the data an
external library would hand it (AST literal positions, identifier traversal
order, regex match indices, file stats) is passed in as an explicit argument.
-/

set_option maxRecDepth 100000

namespace SmartFS

/-! ## Line-preserving truncator (src/truncator.ts) -/

/-- Count newlines in a string (`countNewlines` in src/truncator.ts). -/
def countNewlines : List Char → Nat
  | [] => 0
  | c :: rest => (if c = '\n' then 1 else 0) + countNewlines rest

/-- JavaScript `s.slice(0, n)` for a nonnegative `n`. -/
def jsSliceTo (s : List Char) (n : Nat) : List Char :=
  s.take n

/-- JavaScript `s.slice(-n)` for a nonnegative `n`.  Note the JS quirk:
`slice(-0)` is `slice(0)`, the whole string, while for `n ≥ 1` it is the last
`min n s.length` characters. -/
def jsSliceNeg (s : List Char) (n : Nat) : List Char :=
  if n = 0 then s else s.drop (s.length - n)

/-- The truncation marker `` `...[TRUNCATED ${original.length} CHARS]...` ``. -/
def truncMarker (len : Nat) : List Char :=
  "...[TRUNCATED ".data ++ (Nat.repr len).data ++ " CHARS]...".data

/-- `createTruncatedString` from src/truncator.ts: head preview, marker,
enough newlines to preserve the newline count of `original`, tail preview.
`Math.max(0, ...)` on JS numbers is mirrored by the `Int` computation. -/
def createTruncatedString (original : List Char) (previewLength : Nat) : List Char :=
  let newlineCount := countNewlines original
  let start := jsSliceTo original previewLength
  let stop := jsSliceNeg original previewLength
  let startNewlines := countNewlines start
  let endNewlines := countNewlines stop
  let preservedNewlines :=
    (max 0 ((newlineCount : Int) - (startNewlines : Int) - (endNewlines : Int))).toNat
  start ++ truncMarker original.length ++ List.replicate preservedNewlines '\n' ++ stop

/-- One string/template literal found by the AST walk of
`truncateCodeHighPerf`.  `start`/`stop` are the node's character range in the
source text; `value` is `node.value` (the cooked value) for a string literal
and `quasi.value.raw` (the raw source slice) for a template element;
`isTemplate` tells the two apart.  The meriyah parse and the estree walk are
external, so the list of literal occurrences (in source order,
non-overlapping) is an oracle input. -/
structure LitOcc where
  start : Nat
  stop : Nat
  value : List Char
  isTemplate : Bool
deriving DecidableEq, Repr

/-- The text `magicString.overwrite` writes over one literal's range: the
truncated value, re-wrapped in the original quote character for a plain
string literal, bare for a template quasi; literals not longer than `limit`
are left as the original slice. -/
def litReplacement (sourceCode : List Char) (limit previewLength : Nat) (o : LitOcc) :
    List Char :=
  if o.value.length > limit then
    if o.isTemplate then
      createTruncatedString o.value previewLength
    else
      let quote := (sourceCode.drop o.start).take 1
      quote ++ createTruncatedString o.value previewLength ++ quote
  else
    (sourceCode.drop o.start).take (o.stop - o.start)

/-- Apply the overwrites of all literal occurrences (assumed sorted and
non-overlapping, as AST node ranges are) to the source text, keeping the text
between them: the semantics of `MagicString` with one `overwrite` per
truncated literal. -/
def overwriteAll (sourceCode : List Char) (limit previewLength : Nat) :
    Nat → List LitOcc → List Char
  | pos, [] => sourceCode.drop pos
  | pos, o :: rest =>
      (sourceCode.drop pos).take (o.start - pos)
        ++ litReplacement sourceCode limit previewLength o
        ++ overwriteAll sourceCode limit previewLength o.stop rest

/-- `truncateCodeHighPerf` from src/truncator.ts.  The meriyah parse is the
oracle argument `parsed`: `none` models a parse exception (the `catch` branch
returns the source unchanged), `some occs` the literal occurrences the walk
visits. -/
def truncateCodeHighPerf (sourceCode : List Char) (limit previewLength : Nat)
    (parsed : Option (List LitOcc)) : List Char :=
  match parsed with
  | none => sourceCode
  | some occs => overwriteAll sourceCode limit previewLength 0 occs

/-! Spec vocabulary for the truncation shape (§4.2 of the spec):
`head(previewLen)`, `tail(previewLen)` and the preserved-newline count. -/

/-- The first `n` characters of `s` (the spec's `head(previewLen)`). -/
def specHead (s : List Char) (n : Nat) : List Char :=
  s.take n

/-- The last `n` characters of `s` (the spec's `tail(previewLen)`),
clamped to the whole string when `n` exceeds the length. -/
def specTail (s : List Char) (n : Nat) : List Char :=
  s.drop (s.length - n)

/-- The spec's `max(0, newlineCountInOriginal - newlinesInHead - newlinesInTail)`. -/
def specPreservedNewlines (s : List Char) (n : Nat) : Nat :=
  (max 0 ((countNewlines s : Int) - (countNewlines (specHead s n) : Int)
      - (countNewlines (specTail s n) : Int))).toNat

/-- C7: on every input whose AST parse fails, `truncateCodeHighPerf` returns
the input text unchanged instead of raising an error (fail-open). -/
theorem truncate_fail_open (sourceCode : List Char) (limit previewLength : Nat)
    (parsed : Option (List LitOcc)) (h : parsed = none) :
    truncateCodeHighPerf sourceCode limit previewLength parsed = sourceCode := by
  subst h
  rfl

/-- Witness for `truncate_fail_open`: the unparseable input of the unit test,
`const x = {{{invalid`, is returned unchanged. -/
theorem truncate_fail_open_witness :
    truncateCodeHighPerf "const x = \x7b\x7b\x7binvalid".data 200 50 none
      = "const x = \x7b\x7b\x7binvalid".data :=
  truncate_fail_open _ 200 50 none rfl

/-- C6 (amended): for every `previewLen ≥ 1`, every string or template
literal whose value is longer than `charLimit` is replaced by
`head(previewLen) ++ marker(originalLength) ++
max(0, newlineCountInOriginal - newlinesInHead - newlinesInTail)` newline
characters `++ tail(previewLen)` (re-quoted for a plain string literal); the
marker names the original character length.  At `previewLen = 0` the program
deviates from this shape because JS `slice(-0)` is the whole string (see
`litReplacement_shape_counterexample`). -/
theorem litReplacement_shape (sourceCode : List Char) (limit previewLength : Nat)
    (o : LitOcc) (hp : 1 ≤ previewLength) (hlong : o.value.length > limit) :
    litReplacement sourceCode limit previewLength o =
      (let body := specHead o.value previewLength
          ++ truncMarker o.value.length
          ++ List.replicate (specPreservedNewlines o.value previewLength) '\n'
          ++ specTail o.value previewLength
       if o.isTemplate then body
       else (sourceCode.drop o.start).take 1 ++ body ++ (sourceCode.drop o.start).take 1) := by
  have hne : previewLength ≠ 0 := by omega
  simp only [litReplacement, createTruncatedString, jsSliceTo, jsSliceNeg, if_neg hne,
    if_pos hlong, specHead, specTail, specPreservedNewlines]

/-- C6 as stated fails at `previewLen = 0`: for the 5-character template
quasi `ab<newline>cd` at limit 2, JS `slice(-0)` makes the tail preview the
whole value, so the program emits `marker ++ value` (one trailing newline
inside the copied value, none preserved), while the claimed shape
`head(0) ++ marker ++ max(0, 1 - 0 - 0)` newlines `++ tail(0)` is
`marker ++ "\n"` — the two differ. -/
theorem litReplacement_shape_counterexample :
    (LitOcc.mk 1 6 "ab\ncd".data true).value.length > 2
    ∧ litReplacement "`ab\ncd`".data 2 0 (LitOcc.mk 1 6 "ab\ncd".data true)
        ≠ specHead "ab\ncd".data 0
          ++ truncMarker "ab\ncd".data.length
          ++ List.replicate (specPreservedNewlines "ab\ncd".data 0) '\n'
          ++ specTail "ab\ncd".data 0 := by
  refine ⟨by decide, by decide⟩

/-- Witness for `litReplacement_shape`: the spec scenario, a 300-character
string literal truncated at limit 200 with preview 50; the marker names 300. -/
theorem litReplacement_shape_witness :
    (LitOcc.mk 2 305 (List.replicate 300 'a') false).value.length > 200
    ∧ truncMarker (List.replicate 300 'a').length = "...[TRUNCATED 300 CHARS]...".data
    ∧ litReplacement ("x=\"".data ++ List.replicate 300 'a' ++ "\"".data) 200 50
        (LitOcc.mk 2 305 (List.replicate 300 'a') false) =
      (let body := specHead (List.replicate 300 'a') 50
          ++ truncMarker (List.replicate 300 'a').length
          ++ List.replicate (specPreservedNewlines (List.replicate 300 'a') 50) '\n'
          ++ specTail (List.replicate 300 'a') 50
       if (LitOcc.mk 2 305 (List.replicate 300 'a') false).isTemplate then body
       else (("x=\"".data ++ List.replicate 300 'a' ++ "\"".data).drop 2).take 1 ++ body
         ++ (("x=\"".data ++ List.replicate 300 'a' ++ "\"".data).drop 2).take 1) :=
  ⟨by decide, by decide,
    litReplacement_shape ("x=\"".data ++ List.replicate 300 'a' ++ "\"".data) 200 50
      (LitOcc.mk 2 305 (List.replicate 300 'a') false) (by decide) (by decide)⟩

/-- The C1 failing input: the one-line source `x="aaa…a\nbbb…b"` whose string
literal is written with a backslash-n escape (so the source text itself has no
newline), with 100 `a`s and 100 `b`s around it — the literal's cooked value is
201 characters, above the default limit of 200. -/
def codeC1 : List Char :=
  "x=\"".data ++ List.replicate 100 'a' ++ "\\n".data ++ List.replicate 100 'b' ++ "\"".data

/-- The literal occurrence meriyah reports for `codeC1`: the node spans the
quotes (characters 2 to 206) and its cooked value contains a real newline. -/
def occC1 : LitOcc :=
  LitOcc.mk 2 206 (List.replicate 100 'a' ++ "\n".data ++ List.replicate 100 'b') false

/-- C1 fails on the code: truncating `codeC1` at the default limit 200 and
preview 50 splices the cooked value's real newline between the quotes, so the
output has 1 newline where the input had 0 — the truncator changed the total
line count. -/
theorem truncate_line_count_bug :
    countNewlines (truncateCodeHighPerf codeC1 200 50 (some [occC1])) = 1
    ∧ countNewlines codeC1 = 0
    ∧ countNewlines (truncateCodeHighPerf codeC1 200 50 (some [occC1]))
        ≠ countNewlines codeC1 := by
  refine ⟨by decide, by decide, by decide⟩

/-! ## Map composer cascade (§4.3 of the spec)

The repository performs the cascade by handing the renderer's map to
`@babel/core` as `inputSourceMap` in `runBabelTransform`
(src/transformer.ts), so the composition algorithm itself is not in the
repository's sources. -/

/-- Modelled from the spec: one segment of a Position Map (§3) — a generated
line/column mapped to an original position.  The composition algorithm is
missing from src (delegated to `@babel/core` via `inputSourceMap`), so the
map type follows §3's data model; `target` is `none` for a composed segment
whose §4.3 inner lookup found no preceding segment (`CompositionError`
treated as a null position, §7). -/
structure MapSegment where
  genLine : Nat
  genCol : Nat
  target : Option (Nat × Nat)
deriving DecidableEq, Repr

/-- Modelled from the spec: a Position Map is the ordered collection of
segments, per generated line sorted by generated column ascending (§3). -/
def PositionMap : Type := List MapSegment

/-- Whether a segment lies on the queried generated line at or before the
queried column. -/
def segBefore (line col : Nat) (s : MapSegment) : Bool :=
  s.genLine == line && s.genCol ≤ col

/-- Modelled from the spec: §4.3/§4.4 line/column resolution — the nearest
preceding segment on the same generated line (the last one at column ≤ `col`
in the ascending per-line order), or `none` if no segment precedes. -/
def resolveSegment (m : PositionMap) (line col : Nat) : Option MapSegment :=
  (List.filter (segBefore line col) m).getLast?

/-- Modelled from the spec: resolving a generated position to an original
position; `none` both when no segment precedes and when the found segment
carries a null target. -/
def resolvePos (m : PositionMap) (line col : Nat) : Option (Nat × Nat) :=
  (resolveSegment m line col).bind (fun s => s.target)

/-- Modelled from the spec: §4.3 composition — for each segment of
`mOuter`, resolve its source position through `mInner` and emit it at the
same generated position, preserving order; a failed inner lookup becomes a
null target. -/
def composeMaps (mOuter mInner : PositionMap) : PositionMap :=
  List.map
    (fun s =>
      { s with target := s.target.bind (fun bc => resolvePos mInner bc.1 bc.2) })
    mOuter

/-- Composition keeps each segment's generated coordinates, so the
before-filter commutes with it. -/
theorem filter_segBefore_composeMaps (mOuter mInner : PositionMap) (line col : Nat) :
    List.filter (segBefore line col) (composeMaps mOuter mInner)
      = List.map
          (fun s =>
            { s with target := s.target.bind (fun bc => resolvePos mInner bc.1 bc.2) })
          (List.filter (segBefore line col) mOuter) := by
  unfold composeMaps
  rw [List.filter_map]
  rfl

/-- Resolving any generated position through a composed map is resolving it
through the outer map and chaining the result through the inner map. -/
theorem resolvePos_composeMaps (mOuter mInner : PositionMap) (line col : Nat) :
    resolvePos (composeMaps mOuter mInner) line col
      = (resolvePos mOuter line col).bind (fun bc => resolvePos mInner bc.1 bc.2) := by
  unfold resolvePos resolveSegment
  rw [filter_segBefore_composeMaps, List.getLast?_map]
  cases (List.filter (segBefore line col) mOuter).getLast? with
  | none => rfl
  | some s =>
    cases s.target with
    | none => rfl
    | some bc => rfl

/-- C2: for every generated position in `mapOuter`'s domain (one whose outer
resolution succeeds, yielding `b`), resolving through the composed map equals
resolving through `mapOuter` and then resolving the result through
`mapInner`. -/
theorem compose_resolve_correct (mOuter mInner : PositionMap) (line col : Nat)
    (b : Nat × Nat) (hb : resolvePos mOuter line col = some b) :
    resolvePos (composeMaps mOuter mInner) line col = resolvePos mInner b.1 b.2 := by
  rw [resolvePos_composeMaps, hb]
  rfl

/-- Witness for `compose_resolve_correct`: a two-segment outer map over a
one-segment inner map, queried at a generated position present in the outer
map. -/
theorem compose_resolve_correct_witness :
    resolvePos [MapSegment.mk 1 0 (some (2, 4)), MapSegment.mk 1 5 (some (3, 1))] 1 5
        = some (3, 1)
    ∧ resolvePos
        (composeMaps
          [MapSegment.mk 1 0 (some (2, 4)), MapSegment.mk 1 5 (some (3, 1))]
          [MapSegment.mk 3 0 (some (9, 9))])
        1 5
      = resolvePos [MapSegment.mk 3 0 (some (9, 9))] 3 1 :=
  ⟨by decide,
    compose_resolve_correct
      [MapSegment.mk 1 0 (some (2, 4)), MapSegment.mk 1 5 (some (3, 1))]
      [MapSegment.mk 3 0 (some (9, 9))] 1 5 (3, 1) (by decide)⟩

/-! ## Coordinate-mapped search engine (searchInCode and helpers, src/unnamed/part_008) -/

/-- An original position reported by the source-map consumer; `line`/`column`
are `null` when the map has no answer. -/
structure OriginalPosition where
  line : Option Int
  column : Option Int
deriving DecidableEq, Repr

/-- `buildLineOffsets`'s scan: the offset `i + 1` after each newline at
index `i`, in order. -/
def newlineOffsets : List Char → Nat → List Nat
  | [], _ => []
  | c :: rest, i =>
      if c = '\n' then (i + 1) :: newlineOffsets rest (i + 1)
      else newlineOffsets rest (i + 1)

/-- `buildLineOffsets` from part_008: `offsets[0] = 0`, then one offset per
newline (the `Int32Array` growth is allocation detail; the resulting
`subarray(0, lineCount+1)` is this list). -/
def buildLineOffsets (code : List Char) : List Nat :=
  0 :: newlineOffsets code 0

/-- The `totalLines` count returned by `buildLineOffsets`: newline count plus
one. -/
def totalLines (code : List Char) : Nat :=
  (newlineOffsets code 0).length + 1

/-- The binary-search loop of `getLineNumberFromIndex`: `low`/`high` are JS
numbers (here `Int`; both stay nonnegative while the loop runs, so the JS
`(low + high) >>> 1` midpoint is plain halving). -/
def bsearchAux (offsets : List Nat) (index : Nat) (low high : Int) : Int :=
  if low ≤ high then
    let mid := (low + high) / 2
    if offsets.getD mid.toNat 0 ≤ index then
      bsearchAux offsets index (mid + 1) high
    else
      bsearchAux offsets index low (mid - 1)
  else low
termination_by (high + 1 - low).toNat
decreasing_by
  · omega
  · omega

/-- `getLineNumberFromIndex` from part_008: 1-based line number of the
character at `index`. -/
def getLineNumberFromIndex (offsets : List Nat) (totalLines : Nat) (index : Nat) : Int :=
  bsearchAux offsets index 0 ((totalLines : Int) - 1)

/-- `getLineContent` from part_008: slice one line out of the buffer without
splitting it, trimming a trailing carriage return. -/
def getLineContent (code : List Char) (offsets : List Nat) (totalLines : Nat)
    (lineNo : Int) : List Char :=
  if lineNo < 1 ∨ (totalLines : Int) < lineNo then []
  else
    let startOff := offsets.getD (lineNo - 1).toNat 0
    let endOff : Nat :=
      if lineNo < (totalLines : Int) then offsets.getD lineNo.toNat 0 - 1 else code.length
    let endOff2 :=
      if startOff < endOff ∧ code.getD (endOff - 1) ' ' = '\r' then endOff - 1 else endOff
    (code.drop startOff).take (endOff2 - startOff)

/-- `unescapeBackslashes` from part_008: `str.replace(/\\\\/g, '\\')` — each
doubled backslash becomes a single one, scanning left to right. -/
def unescapeBackslashes : List Char → List Char
  | '\\' :: '\\' :: rest => '\\' :: unescapeBackslashes rest
  | c :: rest => c :: unescapeBackslashes rest
  | [] => []

/-- The character class of `escapeRegex`'s pattern `[()[\]{}.*+?^$|\\]`. -/
def isRegexSpecial (c : Char) : Bool :=
  decide (c = '(' ∨ c = ')' ∨ c = '[' ∨ c = ']' ∨ c = '{' ∨ c = '}' ∨ c = '.'
    ∨ c = '*' ∨ c = '+' ∨ c = '?' ∨ c = '^' ∨ c = '$' ∨ c = '|' ∨ c = '\\')

/-- `escapeRegex` from part_008: prepend a backslash to every regex special
character (`str.replace(/[()[\]{}.*+?^$|\\]/g, '\\$&')`). -/
def escapeRegex : List Char → List Char
  | [] => []
  | c :: rest =>
      if isRegexSpecial c then '\\' :: c :: escapeRegex rest
      else c :: escapeRegex rest

/-- Context carried by the pattern scanner: what the previous token was, to
decide whether a quantifier has something to repeat. -/
inductive RegexCtx where
  | start
  | atom
  | quant
deriving DecidableEq, Repr

/-- Modelled from the spec's external collaborator contract: the JS `RegExp`
constructor's pattern validity check, which is not repository code.  This is
a single-pass scanner over the simplified ECMAScript (Annex B) pattern
grammar: groups must balance, a quantifier needs a preceding atom (with one
optional lazy `?`), a character class must be closed, a trailing backslash is
invalid; lone `]`, `\x7b`, `\x7d` are literal (Annex B) and any escaped
character is accepted.  Arguments: remaining input, open-group depth,
inside-class flag, previous-token context. -/
def patOk : List Char → Nat → Bool → RegexCtx → Bool
  | [], d, inClass, _ => !inClass && d == 0
  | c :: rest, d, inClass, p =>
      if c = '\\' then
        match rest with
        | [] => false
        | _ :: rest2 => patOk rest2 d inClass RegexCtx.atom
      else if inClass then
        if c = ']' then patOk rest d false RegexCtx.atom
        else patOk rest d true p
      else if c = '(' then patOk rest (d + 1) false RegexCtx.start
      else if c = ')' then
        if d = 0 then false else patOk rest (d - 1) false RegexCtx.atom
      else if c = '[' then patOk rest d true RegexCtx.start
      else if c = '*' ∨ c = '+' then
        if p = RegexCtx.atom then patOk rest d false RegexCtx.quant else false
      else if c = '?' then
        if p = RegexCtx.atom then patOk rest d false RegexCtx.quant
        else if p = RegexCtx.quant then patOk rest d false RegexCtx.start
        else false
      else if c = '|' then patOk rest d false RegexCtx.start
      else patOk rest d false RegexCtx.atom

/-- Modelled from the spec: whether the JS `RegExp` constructor accepts the
pattern (the `new RegExp(patternStr, flags)` call in `searchInCode`; the
flag strings built there are always valid). -/
def regexWellFormed (pattern : List Char) : Bool :=
  patOk pattern 0 false RegexCtx.start

/-- Modelled from the spec: the engine's `SyntaxError` message for an invalid
pattern, which names the offending pattern (V8 format
`Invalid regular expression: /pattern/: reason`). -/
def jsRegexErrorMessage (pattern : List Char) : List Char :=
  "Invalid regular expression: /".data ++ pattern ++ "/".data

/-- Search options of `searchInCode` with the source's defaults.
`caseSensitive` only selects the engine's `i` flag and `timeoutMs` is a
wall-clock budget; both live inside the regex-engine / clock oracles (the
match-index list models which matches the scan visits before any timeout). -/
structure SearchOptions where
  query : List Char
  contextLines : Nat := 2
  caseSensitive : Bool := false
  maxMatches : Nat := 10
  isRegex : Bool := false
  timeoutMs : Nat := 500

/-- One context line of a search match. -/
structure ContextLine where
  lineNumber : Int
  content : List Char
  originalPosition : OriginalPosition
deriving DecidableEq, Repr

/-- One reported search match. -/
structure SearchMatch where
  lineNumber : Int
  lineContent : List Char
  originalPosition : OriginalPosition
  contextBefore : List ContextLine
  contextAfter : List ContextLine
deriving DecidableEq, Repr

/-- The search result triple. -/
structure SearchResult where
  «matches» : List SearchMatch
  totalMatches : Nat
  truncated : Bool
deriving DecidableEq, Repr

/-- Integer interval `[lo, hi)` as a list, for the JS `for` loops over line
numbers. -/
def intRange (lo hi : Int) : List Int :=
  (List.range (hi - lo).toNat).map (fun k => lo + k)

/-- Build one context line: content via `getLineContent`, original position
via the source-map consumer oracle (`consumer i` is
`consumer.originalPositionFor({line: i, column: 0})`). -/
def mkContextLine (code : List Char) (offsets : List Nat) (tl : Nat)
    (consumer : Int → OriginalPosition) (i : Int) : ContextLine :=
  ContextLine.mk i (getLineContent code offsets tl i) (consumer i)

/-- Build the fully materialized match for a line: content, original
position, and the two context windows (`max(1, line - contextLines)` up to
the line, and after it up to `min(totalLines, line + contextLines)`). -/
def mkSearchMatch (code : List Char) (offsets : List Nat) (tl : Nat)
    (contextLines : Nat) (consumer : Int → OriginalPosition) (lineNumber : Int) :
    SearchMatch :=
  SearchMatch.mk lineNumber
    (getLineContent code offsets tl lineNumber)
    (consumer lineNumber)
    ((intRange (max 1 (lineNumber - contextLines)) lineNumber).map
      (mkContextLine code offsets tl consumer))
    ((intRange (lineNumber + 1) (min (tl : Int) (lineNumber + contextLines) + 1)).map
      (mkContextLine code offsets tl consumer))

/-- Mutable state of `searchInCode`'s scan loop. -/
structure SearchAcc where
  «matches» : List SearchMatch
  lastMatchedLine : Int
  totalMatchesFound : Nat
deriving Repr

/-- One iteration of the `while ((match = regex.exec(code)))` loop for a
match starting at character `idx`: dedupe against the last matched line,
count, and materialize the match only while under `maxMatches`. -/
def searchStep (code : List Char) (offsets : List Nat) (tl : Nat)
    (contextLines maxMatches : Nat) (consumer : Int → OriginalPosition)
    (acc : SearchAcc) (idx : Nat) : SearchAcc :=
  let lineNumber := getLineNumberFromIndex offsets tl idx
  if lineNumber == acc.lastMatchedLine then acc
  else
    SearchAcc.mk
      (if acc.«matches».length < maxMatches then
        acc.«matches» ++ [mkSearchMatch code offsets tl contextLines consumer lineNumber]
      else acc.«matches»)
      lineNumber
      (acc.totalMatchesFound + 1)

/-- The whole scan loop, starting from no matches and `lastMatchedLine = -1`.
`idxs` is the regex-engine oracle: the `match.index` sequence `exec`
produces (strictly increasing; a timeout cuts it to a prefix, which is again
such a sequence). -/
def searchLoop (code : List Char) (offsets : List Nat) (tl : Nat)
    (contextLines maxMatches : Nat) (consumer : Int → OriginalPosition)
    (idxs : List Nat) : SearchAcc :=
  idxs.foldl (searchStep code offsets tl contextLines maxMatches consumer)
    (SearchAcc.mk [] (-1) 0)

/-- `searchInCode` after pattern compilation: build the line index, scan, and
assemble the result; a rejected pattern raises `Invalid regex: ...` instead. -/
def searchWithPattern (code : List Char) (consumer : Int → OriginalPosition)
    (opts : SearchOptions) (idxs : List Nat) (patternStr : List Char) :
    Except (List Char) SearchResult :=
  if regexWellFormed patternStr then
    let offsets := buildLineOffsets code
    let tl := totalLines code
    let acc := searchLoop code offsets tl opts.contextLines opts.maxMatches consumer idxs
    Except.ok
      (SearchResult.mk acc.«matches» acc.totalMatchesFound
        (decide (acc.totalMatchesFound > opts.maxMatches)))
  else
    Except.error ("Invalid regex: ".data ++ jsRegexErrorMessage patternStr)

/-- `searchInCode` from part_008: unescape the query when it is a regex,
escape it for literal matching otherwise, then compile and scan. -/
def searchInCode (code : List Char) (consumer : Int → OriginalPosition)
    (opts : SearchOptions) (idxs : List Nat) : Except (List Char) SearchResult :=
  searchWithPattern code consumer opts idxs
    (if opts.isRegex then unescapeBackslashes opts.query else escapeRegex opts.query)

/-- The scan loop keeps `matches.length = min totalMatchesFound maxMatches`
invariant from any state satisfying it. -/
theorem searchLoop_cap_invariant (code : List Char) (offsets : List Nat) (tl : Nat)
    (contextLines maxMatches : Nat) (consumer : Int → OriginalPosition)
    (idxs : List Nat) :
    ∀ acc : SearchAcc, acc.«matches».length = min acc.totalMatchesFound maxMatches →
      (idxs.foldl (searchStep code offsets tl contextLines maxMatches consumer)
        acc).«matches».length
        = min
          (idxs.foldl (searchStep code offsets tl contextLines maxMatches consumer)
            acc).totalMatchesFound
          maxMatches := by
  induction idxs with
  | nil => intro acc h; exact h
  | cons i rest ih =>
    intro acc h
    rw [List.foldl_cons]
    apply ih
    unfold searchStep
    by_cases h1 :
        (getLineNumberFromIndex offsets tl i == acc.lastMatchedLine) = true
    · simp only [h1, if_true]
      exact h
    · simp only [Bool.not_eq_true] at h1
      simp only [h1, Bool.false_eq_true, if_false]
      by_cases h2 : acc.«matches».length < maxMatches
      · simp only [h2, if_true, List.length_append, List.length_cons, List.length_nil]
        omega
      · simp only [h2, if_false]
        omega

/-- The cap and truncation-flag relation for any compiled pattern. -/
theorem searchWithPattern_cap (code : List Char) (consumer : Int → OriginalPosition)
    (opts : SearchOptions) (idxs : List Nat) (patternStr : List Char) (r : SearchResult)
    (h : searchWithPattern code consumer opts idxs patternStr = Except.ok r) :
    r.«matches».length = min r.totalMatches opts.maxMatches
      ∧ (r.truncated = true ↔ r.totalMatches > opts.maxMatches) := by
  unfold searchWithPattern at h
  split at h
  · injection h with h'
    subst h'
    refine ⟨?_, by simp⟩
    exact searchLoop_cap_invariant code (buildLineOffsets code) (totalLines code)
      opts.contextLines opts.maxMatches consumer idxs (SearchAcc.mk [] (-1) 0)
      (by simp)
  · cases h

/-- C3: every successful `searchInCode` call returns
`matches.length = min(totalMatches, maxMatches)` and
`truncated = (totalMatches > maxMatches)`. -/
theorem search_cap (code : List Char) (consumer : Int → OriginalPosition)
    (opts : SearchOptions) (idxs : List Nat) (r : SearchResult)
    (h : searchInCode code consumer opts idxs = Except.ok r) :
    r.«matches».length = min r.totalMatches opts.maxMatches
      ∧ (r.truncated = true ↔ r.totalMatches > opts.maxMatches) :=
  searchWithPattern_cap code consumer opts idxs
    (if opts.isRegex then unescapeBackslashes opts.query else escapeRegex opts.query) r h

/-- Evaluation of the scan loop on the two-line text `a\na` with both lines
matching and `maxMatches = 1`. -/
theorem searchLoop_small_eval :
    searchLoop "a\na".data [0, 2] 2 0 1 (fun _ => OriginalPosition.mk none none) [0, 2]
      = SearchAcc.mk [SearchMatch.mk 1 ['a'] (OriginalPosition.mk none none) [] []] 2 2 := by
  simp [searchLoop, searchStep, getLineNumberFromIndex, bsearchAux, mkSearchMatch,
    mkContextLine, intRange, getLineContent]

/-- Evaluation of `searchInCode` on the two-line text `a\na` with literal
query `a` and `maxMatches = 1`: one materialized match, two counted,
truncated. -/
theorem searchInCode_small_eval :
    searchInCode "a\na".data (fun _ => OriginalPosition.mk none none)
        (SearchOptions.mk "a".data 0 false 1 false 500) [0, 2]
      = Except.ok (SearchResult.mk
          [SearchMatch.mk 1 ['a'] (OriginalPosition.mk none none) [] []] 2 true) := by
  have hpat : regexWellFormed
      (if (SearchOptions.mk "a".data 0 false 1 false 500).isRegex then
        unescapeBackslashes "a".data else escapeRegex "a".data) = true := by decide
  have hoff : buildLineOffsets "a\na".data = [0, 2] := by decide
  have htl : totalLines "a\na".data = 2 := by decide
  unfold searchInCode searchWithPattern
  rw [if_pos hpat]
  dsimp only
  rw [hoff, htl, searchLoop_small_eval]
  rfl

/-- Witness for `search_cap`: the concrete search above satisfies the cap and
truncation-flag equations. -/
theorem search_cap_witness :
    searchInCode "a\na".data (fun _ => OriginalPosition.mk none none)
        (SearchOptions.mk "a".data 0 false 1 false 500) [0, 2]
      = Except.ok (SearchResult.mk
          [SearchMatch.mk 1 ['a'] (OriginalPosition.mk none none) [] []] 2 true)
    ∧ (SearchResult.mk
          [SearchMatch.mk 1 ['a'] (OriginalPosition.mk none none) [] []] 2
          true).«matches».length
        = min
            (SearchResult.mk
              [SearchMatch.mk 1 ['a'] (OriginalPosition.mk none none) [] []] 2
              true).totalMatches
            (SearchOptions.mk "a".data 0 false 1 false 500).maxMatches
    ∧ ((SearchResult.mk
          [SearchMatch.mk 1 ['a'] (OriginalPosition.mk none none) [] []] 2
          true).truncated = true
        ↔ (SearchResult.mk
            [SearchMatch.mk 1 ['a'] (OriginalPosition.mk none none) [] []] 2
            true).totalMatches
          > (SearchOptions.mk "a".data 0 false 1 false 500).maxMatches) :=
  ⟨searchInCode_small_eval,
    (search_cap "a\na".data (fun _ => OriginalPosition.mk none none)
        (SearchOptions.mk "a".data 0 false 1 false 500) [0, 2] _
        searchInCode_small_eval).1,
    (search_cap "a\na".data (fun _ => OriginalPosition.mk none none)
        (SearchOptions.mk "a".data 0 false 1 false 500) [0, 2] _
        searchInCode_small_eval).2⟩

/-- Every offset emitted by the newline scan after position `i` exceeds `i`. -/
theorem newlineOffsets_gt (code : List Char) :
    ∀ (i : Nat), ∀ x ∈ newlineOffsets code i, i < x := by
  induction code with
  | nil => intro i x hx; simp [newlineOffsets] at hx
  | cons c rest ih =>
    intro i x hx
    by_cases hc : c = '\n'
    · simp only [newlineOffsets, if_pos hc, List.mem_cons] at hx
      rcases hx with rfl | hx
      · omega
      · have := ih (i + 1) x hx
        omega
    · simp only [newlineOffsets, if_neg hc] at hx
      have := ih (i + 1) x hx
      omega

/-- The newline offsets are strictly increasing. -/
theorem newlineOffsets_chain (code : List Char) :
    ∀ (i : Nat), (newlineOffsets code i).Chain' (· < ·) := by
  induction code with
  | nil => intro i; simp [newlineOffsets]
  | cons c rest ih =>
    intro i
    by_cases hc : c = '\n'
    · simp only [newlineOffsets, if_pos hc]
      refine List.chain'_cons'.mpr ⟨?_, ih (i + 1)⟩
      intro y hy
      have hmem : y ∈ newlineOffsets rest (i + 1) := List.mem_of_mem_head? hy
      have := newlineOffsets_gt rest (i + 1) y hmem
      omega
    · simpa only [newlineOffsets, if_neg hc] using ih (i + 1)

/-- The whole offsets table built by `buildLineOffsets` is strictly
increasing: the invariant §3 states for a `LineIndex`. -/
theorem buildLineOffsets_pairwise (code : List Char) :
    (buildLineOffsets code).Pairwise (· < ·) := by
  have h2 : (newlineOffsets code 0).Pairwise (· < ·) :=
    List.chain'_iff_pairwise.mp (newlineOffsets_chain code 0)
  unfold buildLineOffsets
  exact List.pairwise_cons.mpr ⟨fun x hx => newlineOffsets_gt code 0 x hx, h2⟩

/-- `buildLineOffsets` returns one offset per line. -/
theorem buildLineOffsets_length (code : List Char) :
    (buildLineOffsets code).length = totalLines code := rfl

/-- A `takeWhile` prefix has length `k` when the predicate holds strictly
below `k` and fails from `k` on. -/
theorem takeWhile_length_eq {α : Type} (P : α → Bool) :
    ∀ (l : List α) (k : Nat), k ≤ l.length →
      (∀ (i : Nat) (hi : i < l.length), i < k → P l[i] = true) →
      (∀ (i : Nat) (hi : i < l.length), k ≤ i → P l[i] = false) →
      (l.takeWhile P).length = k := by
  intro l
  induction l with
  | nil =>
    intro k hk _ _
    simp only [List.length_nil, Nat.le_zero] at hk
    simp [hk]
  | cons a as ih =>
    intro k hk htrue hfalse
    cases k with
    | zero =>
      have ha : P a = false := hfalse 0 (by simp) (by omega)
      simp [List.takeWhile_cons, ha]
    | succ k' =>
      have ha : P a = true := htrue 0 (by simp) (by omega)
      rw [List.takeWhile_cons_of_pos ha]
      simp only [List.length_cons]
      rw [ih k' (by simpa using hk)
        (fun i hi hik => by
          have := htrue (i + 1) (by simpa using hi) (by omega)
          simpa using this)
        (fun i hi hik => by
          have := hfalse (i + 1) (by simpa using hi) (by omega)
          simpa using this)]

/-- A pointwise weaker predicate keeps a `takeWhile` prefix at least as
short. -/
theorem takeWhile_length_mono {α : Type} (P Q : α → Bool)
    (h : ∀ a, P a = true → Q a = true) :
    ∀ l : List α, (l.takeWhile P).length ≤ (l.takeWhile Q).length := by
  intro l
  induction l with
  | nil => simp
  | cons a as ih =>
    by_cases hp : P a = true
    · rw [List.takeWhile_cons_of_pos hp, List.takeWhile_cons_of_pos (h a hp)]
      simpa using ih
    · rw [List.takeWhile_cons_of_neg (by simpa using hp)]
      simp

/-- The binary-search loop of `getLineNumberFromIndex` computes the rank of
`index` in a strictly increasing offsets table: the number of offsets that
are at most `index`. -/
theorem bsearchAux_rank (offsets : List Nat) (hsort : offsets.Pairwise (· < ·))
    (index : Nat) :
    ∀ (fuel : Nat) (low high : Int), (high + 1 - low).toNat ≤ fuel →
      0 ≤ low → low ≤ high + 1 → high + 1 ≤ (offsets.length : Int) →
      (∀ (i : Nat) (hi : i < offsets.length), (i : Int) < low → offsets[i] ≤ index) →
      (∀ (i : Nat) (hi : i < offsets.length), high < (i : Int) → index < offsets[i]) →
      bsearchAux offsets index low high
        = ((offsets.takeWhile (fun o => decide (o ≤ index))).length : Int) := by
  intro fuel
  induction fuel with
  | zero =>
    intro low high hf h0 hlh hhl htrue hfalse
    have hex : ¬ low ≤ high := by omega
    rw [bsearchAux, if_neg hex]
    have hlen : (offsets.takeWhile (fun o => decide (o ≤ index))).length = low.toNat := by
      apply takeWhile_length_eq
      · omega
      · intro i hi hik
        simpa using htrue i hi (by omega)
      · intro i hi hik
        have := hfalse i hi (by omega)
        simp only [decide_eq_false_iff_not]
        omega
    rw [hlen]
    omega
  | succ f ih =>
    intro low high hf h0 hlh hhl htrue hfalse
    by_cases hex : low ≤ high
    · rw [bsearchAux, if_pos hex]
      dsimp only
      have hmid1 : low ≤ (low + high) / 2 := by omega
      have hmid2 : (low + high) / 2 ≤ high := by omega
      have hmidlt : ((low + high) / 2).toNat < offsets.length := by omega
      have hgetd : offsets.getD ((low + high) / 2).toNat 0
          = offsets[((low + high) / 2).toNat] := List.getD_eq_getElem offsets 0 hmidlt
      by_cases hcmp : offsets.getD ((low + high) / 2).toNat 0 ≤ index
      · rw [if_pos hcmp]
        apply ih ((low + high) / 2 + 1) high (by omega) (by omega) (by omega) hhl
        · intro i hi hik
          rcases Nat.lt_or_ge i ((low + high) / 2).toNat with hlt | hge
          · have hij := List.pairwise_iff_getElem.mp hsort i ((low + high) / 2).toNat
              hi hmidlt hlt
            omega
          · have : i = ((low + high) / 2).toNat := by omega
            subst this
            omega
        · intro i hi hik
          exact hfalse i hi hik
      · rw [if_neg hcmp]
        apply ih low ((low + high) / 2 - 1) (by omega) h0 (by omega) (by omega) htrue
        intro i hi hik
        rcases Nat.lt_or_ge ((low + high) / 2).toNat i with hlt | hge
        · have hij := List.pairwise_iff_getElem.mp hsort ((low + high) / 2).toNat i
            hmidlt hi hlt
          omega
        · have : i = ((low + high) / 2).toNat := by omega
          subst this
          omega
    · have hf0 : (high + 1 - low).toNat ≤ 0 := by omega
      rw [bsearchAux, if_neg hex]
      have hlen : (offsets.takeWhile (fun o => decide (o ≤ index))).length = low.toNat := by
        apply takeWhile_length_eq
        · omega
        · intro i hi hik
          simpa using htrue i hi (by omega)
        · intro i hi hik
          have := hfalse i hi (by omega)
          simp only [decide_eq_false_iff_not]
          omega
      rw [hlen]
      omega

/-- `getLineNumberFromIndex` over the table built for `code` is the rank of
the index among the line offsets. -/
theorem getLineNumberFromIndex_rank (code : List Char) (index : Nat) :
    getLineNumberFromIndex (buildLineOffsets code) (totalLines code) index
      = (((buildLineOffsets code).takeWhile (fun o => decide (o ≤ index))).length : Int) := by
  have hlen : (buildLineOffsets code).length = totalLines code :=
    buildLineOffsets_length code
  have hpos : 1 ≤ totalLines code := by
    unfold totalLines
    omega
  unfold getLineNumberFromIndex
  apply bsearchAux_rank (buildLineOffsets code) (buildLineOffsets_pairwise code) index
      ((totalLines code : Int) - 1 + 1 - 0).toNat 0 ((totalLines code : Int) - 1)
      (by omega) (by omega) (by omega) (by omega)
  · intro i hi hik
    omega
  · intro i hi hik
    rw [hlen] at hi
    omega

/-- Every computed line number is at least 1 (`offsets[0] = 0` always
qualifies). -/
theorem getLineNumberFromIndex_ge_one (code : List Char) (index : Nat) :
    1 ≤ getLineNumberFromIndex (buildLineOffsets code) (totalLines code) index := by
  rw [getLineNumberFromIndex_rank]
  unfold buildLineOffsets
  rw [List.takeWhile_cons_of_pos (by simp)]
  simp

/-- Line numbers are monotone in the character index. -/
theorem getLineNumberFromIndex_mono (code : List Char) (i j : Nat) (hij : i ≤ j) :
    getLineNumberFromIndex (buildLineOffsets code) (totalLines code) i
      ≤ getLineNumberFromIndex (buildLineOffsets code) (totalLines code) j := by
  rw [getLineNumberFromIndex_rank, getLineNumberFromIndex_rank]
  have := takeWhile_length_mono (fun o => decide (o ≤ i)) (fun o => decide (o ≤ j))
    (fun a ha => by
      simp only [decide_eq_true_eq] at ha ⊢
      omega)
    (buildLineOffsets code)
  omega

/-- The line-number stream the scan loop's `lastMatchedLine` comparison
effectively computes: drop an element equal to the most recent kept one
(`-1` before any match). -/
def dedupAdj : Int → List Int → List Int
  | _, [] => []
  | last, x :: xs => if x = last then dedupAdj last xs else x :: dedupAdj x xs

/-- On a non-decreasing list whose elements all dominate the sentinel,
adjacent dedup yields a strictly increasing list of elements above the
sentinel. -/
theorem dedupAdj_sorted (l : List Int) :
    ∀ last : Int, l.Pairwise (· ≤ ·) → (∀ y ∈ l, last ≤ y) →
      (dedupAdj last l).Pairwise (· < ·) ∧ ∀ z ∈ dedupAdj last l, last < z := by
  induction l with
  | nil => intro last _ _; exact ⟨List.Pairwise.nil, by simp [dedupAdj]⟩
  | cons x xs ih =>
    intro last hpw hge
    have hx : last ≤ x := hge x (by simp)
    obtain ⟨hxall, hpw'⟩ := List.pairwise_cons.mp hpw
    by_cases hxl : x = last
    · simp only [dedupAdj, if_pos hxl]
      exact ih last hpw' (fun y hy => hge y (List.mem_cons_of_mem _ hy))
    · simp only [dedupAdj, if_neg hxl]
      obtain ⟨hp, hgt⟩ := ih x hpw' hxall
      refine ⟨List.pairwise_cons.mpr ⟨hgt, hp⟩, ?_⟩
      intro z hz
      rcases List.mem_cons.mp hz with rfl | hz'
      · omega
      · have := hgt z hz'
        omega

/-- Membership after adjacent dedup, on a non-decreasing list dominating the
sentinel: exactly the elements other than the sentinel survive. -/
theorem dedupAdj_mem (l : List Int) :
    ∀ last : Int, l.Pairwise (· ≤ ·) → (∀ y ∈ l, last ≤ y) →
      ∀ z, z ∈ dedupAdj last l ↔ z ∈ l ∧ z ≠ last := by
  induction l with
  | nil => intro last _ _ z; simp [dedupAdj]
  | cons x xs ih =>
    intro last hpw hge z
    have hx : last ≤ x := hge x (by simp)
    obtain ⟨hxall, hpw'⟩ := List.pairwise_cons.mp hpw
    by_cases hxl : x = last
    · simp only [dedupAdj, if_pos hxl]
      rw [ih last hpw' (fun y hy => hge y (List.mem_cons_of_mem _ hy))]
      subst hxl
      constructor
      · rintro ⟨hz, hne⟩
        exact ⟨List.mem_cons_of_mem _ hz, hne⟩
      · rintro ⟨hz, hne⟩
        rcases List.mem_cons.mp hz with rfl | hz'
        · exact absurd rfl hne
        · exact ⟨hz', hne⟩
    · simp only [dedupAdj, if_neg hxl, List.mem_cons]
      rw [ih x hpw' hxall]
      constructor
      · rintro (rfl | ⟨hz, hne⟩)
        · exact ⟨Or.inl rfl, hxl⟩
        · have := hxall z hz
          exact ⟨Or.inr hz, by omega⟩
      · rintro ⟨rfl | hz, hne⟩
        · exact Or.inl rfl
        · by_cases hzx : z = x
          · exact Or.inl hzx
          · exact Or.inr ⟨hz, hzx⟩

/-- The scan loop, projected: from any state, the final count grows by the
number of adjacent-deduped line numbers, and the materialized matches extend
by those lines, capped at the remaining budget. -/
theorem searchLoop_proj (code : List Char) (offsets : List Nat) (tl ctx maxM : Nat)
    (consumer : Int → OriginalPosition) :
    ∀ (idxs : List Nat) (acc : SearchAcc),
      (idxs.foldl (searchStep code offsets tl ctx maxM consumer) acc).totalMatchesFound
          = acc.totalMatchesFound
            + (dedupAdj acc.lastMatchedLine
                (idxs.map (fun i => getLineNumberFromIndex offsets tl i))).length
      ∧ (idxs.foldl (searchStep code offsets tl ctx maxM consumer) acc).«matches»
          = acc.«matches»
            ++ (List.take (maxM - acc.«matches».length)
                (dedupAdj acc.lastMatchedLine
                  (idxs.map (fun i => getLineNumberFromIndex offsets tl i)))).map
                (mkSearchMatch code offsets tl ctx consumer) := by
  intro idxs
  induction idxs with
  | nil => intro acc; simp [dedupAdj]
  | cons i rest ih =>
    intro acc
    rw [List.foldl_cons, List.map_cons]
    by_cases hl : getLineNumberFromIndex offsets tl i = acc.lastMatchedLine
    · have hstep : searchStep code offsets tl ctx maxM consumer acc i = acc := by
        unfold searchStep
        dsimp only
        rw [if_pos (beq_iff_eq.mpr hl)]
      rw [hstep]
      simp only [dedupAdj, if_pos hl]
      exact ih acc
    · have hstep : searchStep code offsets tl ctx maxM consumer acc i
          = SearchAcc.mk
              (if acc.«matches».length < maxM then
                acc.«matches»
                  ++ [mkSearchMatch code offsets tl ctx consumer
                        (getLineNumberFromIndex offsets tl i)]
              else acc.«matches»)
              (getLineNumberFromIndex offsets tl i)
              (acc.totalMatchesFound + 1) := by
        unfold searchStep
        dsimp only
        rw [if_neg (by simpa using hl)]
      rw [hstep]
      simp only [dedupAdj, if_neg hl]
      obtain ⟨ihTotal, ihMatches⟩ := ih
        (SearchAcc.mk
          (if acc.«matches».length < maxM then
            acc.«matches»
              ++ [mkSearchMatch code offsets tl ctx consumer
                    (getLineNumberFromIndex offsets tl i)]
          else acc.«matches»)
          (getLineNumberFromIndex offsets tl i)
          (acc.totalMatchesFound + 1))
      constructor
      · rw [ihTotal]
        simp only [List.length_cons]
        omega
      · rw [ihMatches]
        by_cases hlt : acc.«matches».length < maxM
        · simp only [hlt, if_pos, List.length_append, List.length_cons, List.length_nil]
          have hsub : maxM - acc.«matches».length = (maxM - (acc.«matches».length + 1)) + 1 := by
            omega
          rw [hsub, List.take_succ_cons, List.map_cons, List.append_assoc]
          rfl
        · simp only [hlt, if_neg, if_false]
          have hz : maxM - acc.«matches».length = 0 := by omega
          rw [hz]
          simp

/-- The dedup and distinct-count properties for any compiled pattern, given
the engine's guarantee that `exec` yields strictly increasing match
indices. -/
theorem searchWithPattern_dedup (code : List Char) (consumer : Int → OriginalPosition)
    (opts : SearchOptions) (idxs : List Nat) (patternStr : List Char) (r : SearchResult)
    (hidx : idxs.Chain' (· < ·))
    (h : searchWithPattern code consumer opts idxs patternStr = Except.ok r) :
    (r.«matches».map (fun m => m.lineNumber)).Pairwise (· ≠ ·)
      ∧ r.totalMatches
        = (idxs.map (fun i =>
            getLineNumberFromIndex (buildLineOffsets code) (totalLines code) i)).toFinset.card := by
  unfold searchWithPattern at h
  split at h
  · injection h with h'
    subst h'
    have hLpw : (idxs.map (fun i =>
        getLineNumberFromIndex (buildLineOffsets code) (totalLines code) i)).Pairwise
          (· ≤ ·) := by
      refine List.pairwise_map.mpr ?_
      refine (List.chain'_iff_pairwise.mp hidx).imp ?_
      intro a b hab
      exact getLineNumberFromIndex_mono code a b (by omega)
    have hLge : ∀ y ∈ idxs.map (fun i =>
        getLineNumberFromIndex (buildLineOffsets code) (totalLines code) i),
          (-1 : Int) ≤ y := by
      intro y hy
      obtain ⟨i, _, rfl⟩ := List.mem_map.mp hy
      have := getLineNumberFromIndex_ge_one code i
      omega
    obtain ⟨hDpw, hDgt⟩ := dedupAdj_sorted _ (-1) hLpw hLge
    have hDmem := dedupAdj_mem _ (-1) hLpw hLge
    obtain ⟨hTotal, hMatches⟩ := searchLoop_proj code (buildLineOffsets code)
      (totalLines code) opts.contextLines opts.maxMatches consumer idxs
      (SearchAcc.mk [] (-1) 0)
    unfold searchLoop
    constructor
    · rw [hMatches]
      simp only [List.nil_append, List.length_nil, Nat.sub_zero, List.map_map]
      have hcomp : ((fun m => m.lineNumber)
            ∘ mkSearchMatch code (buildLineOffsets code) (totalLines code)
                opts.contextLines consumer)
          = id := by
        funext ln
        rfl
      rw [hcomp, List.map_id]
      refine List.Pairwise.imp (fun hab => ne_of_lt hab) ?_
      exact hDpw.sublist (List.take_sublist _ _)
    · rw [hTotal]
      simp only [Nat.zero_add]
      have hnodup : (dedupAdj (-1) (idxs.map (fun i =>
          getLineNumberFromIndex (buildLineOffsets code) (totalLines code) i))).Nodup :=
        hDpw.imp (fun hab => ne_of_lt hab)
      have hset : (dedupAdj (-1) (idxs.map (fun i =>
            getLineNumberFromIndex (buildLineOffsets code) (totalLines code) i))).toFinset
          = (idxs.map (fun i =>
            getLineNumberFromIndex (buildLineOffsets code) (totalLines code) i)).toFinset := by
        ext z
        simp only [List.mem_toFinset]
        rw [hDmem z]
        constructor
        · rintro ⟨hz, _⟩
          exact hz
        · intro hz
          refine ⟨hz, ?_⟩
          have := hLge z hz
          obtain ⟨i, _, rfl⟩ := List.mem_map.mp hz
          have := getLineNumberFromIndex_ge_one code i
          omega
      rw [← hset, ← List.toFinset_card_of_nodup hnodup]
  · cases h

/-- C4: for every search over strictly increasing match indices, no two
reported matches share a line number, and `totalMatches` counts each matched
line once per distinct line, not once per occurrence. -/
theorem search_dedup (code : List Char) (consumer : Int → OriginalPosition)
    (opts : SearchOptions) (idxs : List Nat) (r : SearchResult)
    (hidx : idxs.Chain' (· < ·))
    (h : searchInCode code consumer opts idxs = Except.ok r) :
    (r.«matches».map (fun m => m.lineNumber)).Pairwise (· ≠ ·)
      ∧ r.totalMatches
        = (idxs.map (fun i =>
            getLineNumberFromIndex (buildLineOffsets code) (totalLines code) i)).toFinset.card :=
  searchWithPattern_dedup code consumer opts idxs
    (if opts.isRegex then unescapeBackslashes opts.query else escapeRegex opts.query) r
    hidx h

/-- Evaluation of the scan loop on `aa\na` with matches at indices 0, 1, 3:
indices 0 and 1 share line 1 and are deduplicated. -/
theorem searchLoop_dedup_eval :
    searchLoop "aa\na".data [0, 3] 2 0 10 (fun _ => OriginalPosition.mk none none) [0, 1, 3]
      = SearchAcc.mk
          [SearchMatch.mk 1 ['a', 'a'] (OriginalPosition.mk none none) [] [],
            SearchMatch.mk 2 ['a'] (OriginalPosition.mk none none) [] []]
          2 2 := by
  simp [searchLoop, searchStep, getLineNumberFromIndex, bsearchAux, mkSearchMatch,
    mkContextLine, intRange, getLineContent]

/-- Evaluation of `searchInCode` on `aa\na` with literal query `a` and match
indices 0, 1, 3: two matches on distinct lines, two counted. -/
theorem searchInCode_dedup_eval :
    searchInCode "aa\na".data (fun _ => OriginalPosition.mk none none)
        (SearchOptions.mk "a".data 0 false 10 false 500) [0, 1, 3]
      = Except.ok (SearchResult.mk
          [SearchMatch.mk 1 ['a', 'a'] (OriginalPosition.mk none none) [] [],
            SearchMatch.mk 2 ['a'] (OriginalPosition.mk none none) [] []]
          2 false) := by
  have hpat : regexWellFormed
      (if (SearchOptions.mk "a".data 0 false 10 false 500).isRegex then
        unescapeBackslashes "a".data else escapeRegex "a".data) = true := by decide
  have hoff : buildLineOffsets "aa\na".data = [0, 3] := by decide
  have htl : totalLines "aa\na".data = 2 := by decide
  unfold searchInCode searchWithPattern
  rw [if_pos hpat]
  dsimp only
  rw [hoff, htl, searchLoop_dedup_eval]
  rfl

/-- Witness for `search_dedup`: the concrete search above has pairwise
distinct match lines and counts each matched line once. -/
theorem search_dedup_witness :
    ([0, 1, 3] : List Nat).Chain' (· < ·)
    ∧ searchInCode "aa\na".data (fun _ => OriginalPosition.mk none none)
        (SearchOptions.mk "a".data 0 false 10 false 500) [0, 1, 3]
      = Except.ok (SearchResult.mk
          [SearchMatch.mk 1 ['a', 'a'] (OriginalPosition.mk none none) [] [],
            SearchMatch.mk 2 ['a'] (OriginalPosition.mk none none) [] []]
          2 false)
    ∧ ((SearchResult.mk
          [SearchMatch.mk 1 ['a', 'a'] (OriginalPosition.mk none none) [] [],
            SearchMatch.mk 2 ['a'] (OriginalPosition.mk none none) [] []]
          2 false).«matches».map (fun m => m.lineNumber)).Pairwise (· ≠ ·)
    ∧ (SearchResult.mk
          [SearchMatch.mk 1 ['a', 'a'] (OriginalPosition.mk none none) [] [],
            SearchMatch.mk 2 ['a'] (OriginalPosition.mk none none) [] []]
          2 false).totalMatches
      = (([0, 1, 3] : List Nat).map (fun i =>
          getLineNumberFromIndex (buildLineOffsets "aa\na".data)
            (totalLines "aa\na".data) i)).toFinset.card :=
  ⟨by simp, searchInCode_dedup_eval,
    (search_dedup "aa\na".data (fun _ => OriginalPosition.mk none none)
        (SearchOptions.mk "a".data 0 false 10 false 500) [0, 1, 3] _
        (by simp) searchInCode_dedup_eval).1,
    (search_dedup "aa\na".data (fun _ => OriginalPosition.mk none none)
        (SearchOptions.mk "a".data 0 false 10 false 500) [0, 1, 3] _
        (by simp) searchInCode_dedup_eval).2⟩

/-- Every escaped string is a well-formed pattern: `escapeRegex` output is a
sequence of escaped specials and plain literal characters, so the scanner
accepts it at any group depth equal to zero. -/
theorem patOk_escapeRegex (s : List Char) :
    ∀ (d : Nat) (p : RegexCtx), patOk (escapeRegex s) d false p = (d == 0) := by
  induction s with
  | nil => intro d p; rfl
  | cons c s' ih =>
    intro d p
    by_cases hsp : isRegexSpecial c = true
    · rw [escapeRegex, if_pos hsp]
      show patOk ('\\' :: c :: escapeRegex s') d false p = (d == 0)
      rw [patOk.eq_def]
      dsimp only
      rw [if_pos rfl]
      exact ih d RegexCtx.atom
    · have hsp' : isRegexSpecial c = false := by
        revert hsp; cases isRegexSpecial c <;> simp
      have hne := hsp'
      simp only [isRegexSpecial, decide_eq_false_iff_not] at hne
      push_neg at hne
      obtain ⟨h1, h2, h3, h4, h5, h6, h7, h8, h9, h10, h11, h12, h13, h14⟩ := hne
      rw [escapeRegex, if_neg (by rw [hsp']; exact Bool.false_ne_true)]
      rw [patOk.eq_def]
      dsimp only
      rw [if_neg h14]
      rw [if_neg (Bool.false_ne_true), if_neg h1, if_neg h2, if_neg h3,
        if_neg (by tauto : ¬(c = '*' ∨ c = '+')), if_neg h10, if_neg h13]
      exact ih d RegexCtx.atom

/-- A literal query's escaped pattern always compiles. -/
theorem regexWellFormed_escapeRegex (q : List Char) :
    regexWellFormed (escapeRegex q) = true := by
  unfold regexWellFormed
  rw [patOk_escapeRegex]
  rfl

/-- C9: a literal (non-regex) query is regex-escaped before compilation and
never raises a pattern error, and an invalid regex query makes `searchInCode`
raise a descriptive `Invalid regex` error that names the invalid compiled
pattern and yields no result. -/
theorem search_pattern_errors :
    (∀ (code : List Char) (consumer : Int → OriginalPosition) (opts : SearchOptions)
        (idxs : List Nat), opts.isRegex = false →
        ∃ r, searchInCode code consumer opts idxs = Except.ok r)
    ∧ (∀ (code : List Char) (consumer : Int → OriginalPosition) (opts : SearchOptions)
        (idxs : List Nat), opts.isRegex = true →
        regexWellFormed (unescapeBackslashes opts.query) = false →
        searchInCode code consumer opts idxs
            = Except.error ("Invalid regex: ".data
                ++ jsRegexErrorMessage (unescapeBackslashes opts.query))
          ∧ ∃ pre suf, "Invalid regex: ".data
                ++ jsRegexErrorMessage (unescapeBackslashes opts.query)
              = pre ++ unescapeBackslashes opts.query ++ suf) := by
  constructor
  · intro code consumer opts idxs hreg
    unfold searchInCode
    rw [hreg]
    simp only [Bool.false_eq_true, if_false]
    unfold searchWithPattern
    rw [if_pos (regexWellFormed_escapeRegex opts.query)]
    exact ⟨_, rfl⟩
  · intro code consumer opts idxs hreg hbad
    unfold searchInCode
    rw [hreg]
    simp only [if_true]
    unfold searchWithPattern
    rw [if_neg (by rw [hbad]; exact Bool.false_ne_true)]
    refine ⟨rfl, "Invalid regex: ".data ++ "Invalid regular expression: /".data,
      "/".data, ?_⟩
    unfold jsRegexErrorMessage
    simp [List.append_assoc]

/-- Witness for `search_pattern_errors`: the literal query `a` always
succeeds, and the invalid regex query `(` fails with the descriptive
message. -/
theorem search_pattern_errors_witness :
    (∃ r, searchInCode "a".data (fun _ => OriginalPosition.mk none none)
        (SearchOptions.mk "a".data 2 false 10 false 500) [] = Except.ok r)
    ∧ (searchInCode "a".data (fun _ => OriginalPosition.mk none none)
          (SearchOptions.mk "(".data 2 false 10 true 500) []
          = Except.error ("Invalid regex: ".data
              ++ jsRegexErrorMessage (unescapeBackslashes "(".data))
        ∧ ∃ pre suf, "Invalid regex: ".data
              ++ jsRegexErrorMessage (unescapeBackslashes "(".data)
            = pre ++ unescapeBackslashes "(".data ++ suf) :=
  ⟨search_pattern_errors.1 "a".data (fun _ => OriginalPosition.mk none none)
      (SearchOptions.mk "a".data 2 false 10 false 500) [] rfl,
    search_pattern_errors.2 "a".data (fun _ => OriginalPosition.mk none none)
      (SearchOptions.mk "(".data 2 false 10 true 500) [] rfl (by decide)⟩

/-- C10: with `isRegex` set, `searchInCode` first rewrites every doubled
backslash of the query to a single one (`unescapeBackslashes`) and compiles
that, and for some queries (one containing a literal `\\\\` sequence) the
compiled pattern differs from the query as supplied. -/
theorem search_regex_unescapes :
    (∀ (code : List Char) (consumer : Int → OriginalPosition) (opts : SearchOptions)
        (idxs : List Nat), opts.isRegex = true →
        searchInCode code consumer opts idxs
          = searchWithPattern code consumer opts idxs (unescapeBackslashes opts.query))
    ∧ unescapeBackslashes ['a', '\\', '\\', 'b'] ≠ ['a', '\\', '\\', 'b'] := by
  constructor
  · intro code consumer opts idxs hreg
    unfold searchInCode
    rw [hreg]
    simp only [if_true]
  · decide

/-- Witness for `search_regex_unescapes`: a concrete regex-mode call goes
through the unescaped pattern. -/
theorem search_regex_unescapes_witness :
    searchInCode "a".data (fun _ => OriginalPosition.mk none none)
        (SearchOptions.mk ['a', '\\', '\\', 'b'] 2 false 10 true 500) []
      = searchWithPattern "a".data (fun _ => OriginalPosition.mk none none)
          (SearchOptions.mk ['a', '\\', '\\', 'b'] 2 false 10 true 500) []
          (unescapeBackslashes ['a', '\\', '\\', 'b'])
    ∧ unescapeBackslashes ['a', '\\', '\\', 'b'] ≠ ['a', '\\', '\\', 'b'] :=
  ⟨search_regex_unescapes.1 "a".data (fun _ => OriginalPosition.mk none none)
      (SearchOptions.mk ['a', '\\', '\\', 'b'] 2 false 10 true 500) [] rfl,
    search_regex_unescapes.2⟩

/-! ## Scope-based binding analyzer (src/analyzer.ts) -/

namespace Analyzer

/-- A node position in the beautified text: 1-based line, 0-based column
(`node.loc.start`). -/
structure NodePos where
  line : Nat
  column : Nat
deriving DecidableEq, Repr

/-- The scope facility's answer for one identifier occurrence
(`path.scope.getBinding(identifier)`), provided by the external Babel
traversal: the owning scope's uid, the binding kind, the declaring
identifier's position (`binding.identifier.loc`), and the positions of the
reference paths in source order (`refPath.node.loc`, `none` when absent). -/
structure BindingOracle where
  scopeUid : Nat
  kind : List Char
  defLoc : Option NodePos
  refLocs : List (Option NodePos)
deriving DecidableEq, Repr

/-- One `Identifier` node visit of the Babel traversal, in traversal order:
node name, node position, and the binding the scope chain resolves it to
(`none` when `getBinding` returns null). -/
structure IdentOcc where
  name : List Char
  loc : Option NodePos
  binding : Option BindingOracle
deriving DecidableEq, Repr

/-- `LocationInfo` from src/analyzer.ts. -/
structure LocationInfo where
  line : Nat
  column : Nat
  originalPosition : OriginalPosition
  lineContent : List Char
deriving DecidableEq, Repr

/-- `BindingInfo` from src/analyzer.ts. -/
structure BindingInfo where
  scopeUid : Nat
  kind : List Char
  definition : LocationInfo
  references : List LocationInfo
  totalReferences : Nat
  hitLocation : Option LocationInfo
deriving DecidableEq, Repr

/-- `AnalysisResult` from src/analyzer.ts. -/
structure AnalysisResult where
  bindings : List BindingInfo
  identifier : List Char
  isTargeted : Bool
  targetLine : Option Nat
deriving DecidableEq, Repr

/-- `AnalyzeOptions` from src/analyzer.ts. -/
structure AnalyzeOptions where
  maxReferences : Option Nat := none
  targetLine : Option Nat := none
deriving DecidableEq, Repr

/-- JavaScript `code.split('\n')`. -/
def splitLines : List Char → List (List Char)
  | [] => [[]]
  | c :: rest =>
      if c = '\n' then [] :: splitLines rest
      else
        match splitLines rest with
        | l :: ls => (c :: l) :: ls
        | [] => [[c]]

/-- `getLineContent` from src/analyzer.ts: 1-based lookup into the split
lines, empty out of range. -/
def getLineContent (lines : List (List Char)) (lineNumber : Nat) : List Char :=
  if lineNumber < 1 ∨ lines.length < lineNumber then []
  else lines.getD (lineNumber - 1) []

/-- `createLocationInfo` from src/analyzer.ts; `consumer line column` is the
source-map consumer oracle (`originalPositionFor`). -/
def createLocationInfo (consumer : Nat → Nat → OriginalPosition)
    (lines : List (List Char)) (line column : Nat) : LocationInfo :=
  LocationInfo.mk line column (consumer line column) (getLineContent lines line)

/-- The `Identifier` visitor of `analyzeBindings`, folded over the traversal
order with the mutable `processedScopes` set and `bindings` array made
explicit; in targeted mode a successful push performs `path.stop()`, which
this recursion models by returning without visiting the remaining
occurrences. -/
def analyzeTraverse (consumer : Nat → Nat → OriginalPosition)
    (lines : List (List Char)) (identifier : List Char) (targetLine : Option Nat)
    (maxReferences : Nat) :
    List IdentOcc → List Nat → List BindingInfo → List BindingInfo
  | [], _, acc => acc
  | o :: rest, processed, acc =>
      if o.name ≠ identifier then
        analyzeTraverse consumer lines identifier targetLine maxReferences rest
          processed acc
      else if targetLine.isSome
          && (match o.loc with
              | none => true
              | some l => decide (some l.line ≠ targetLine)) then
        analyzeTraverse consumer lines identifier targetLine maxReferences rest
          processed acc
      else
        match o.binding with
        | none =>
            analyzeTraverse consumer lines identifier targetLine maxReferences rest
              processed acc
        | some b =>
            if b.scopeUid ∈ processed then
              analyzeTraverse consumer lines identifier targetLine maxReferences rest
                processed acc
            else
              match b.defLoc with
              | none =>
                  analyzeTraverse consumer lines identifier targetLine maxReferences
                    rest (b.scopeUid :: processed) acc
              | some dl =>
                  let definition := createLocationInfo consumer lines dl.line dl.column
                  let allReferences := b.refLocs.filterMap (fun rl =>
                    match rl with
                    | none => none
                    | some l => some (createLocationInfo consumer lines l.line l.column))
                  let hitLocation :=
                    if targetLine.isSome then
                      match o.loc with
                      | some l => some (createLocationInfo consumer lines l.line l.column)
                      | none => none
                    else none
                  let newAcc := acc ++ [BindingInfo.mk b.scopeUid b.kind definition
                    (allReferences.take maxReferences) allReferences.length hitLocation]
                  if targetLine.isSome then newAcc
                  else
                    analyzeTraverse consumer lines identifier targetLine maxReferences
                      rest (b.scopeUid :: processed) newAcc

/-- `analyzeBindings` from src/analyzer.ts.  The Babel parse and traversal
are external: `occs` is the oracle list of `Identifier` visits in traversal
order.  The defaulting of `maxReferences` (15 targeted, 10 otherwise) is the
source's. -/
def analyzeBindings (code : List Char) (consumer : Nat → Nat → OriginalPosition)
    (identifier : List Char) (options : AnalyzeOptions) (occs : List IdentOcc) :
    AnalysisResult :=
  let targetLine := options.targetLine
  let isTargeted := targetLine.isSome
  let maxReferences := options.maxReferences.getD (if isTargeted then 15 else 10)
  let lines := splitLines code
  AnalysisResult.mk
    (analyzeTraverse consumer lines identifier targetLine maxReferences occs [] [])
    identifier isTargeted targetLine

end Analyzer

namespace Analyzer

/-- In targeted mode, occurrences whose name differs or whose line misses the
target are skipped without touching the traversal state. -/
theorem analyzeTraverse_skip (consumer : Nat → Nat → OriginalPosition)
    (lines : List (List Char)) (identifier : List Char) (t : Nat)
    (maxReferences : Nat) :
    ∀ (pre rest : List IdentOcc) (processed : List Nat) (acc : List BindingInfo),
      (∀ o' ∈ pre, o'.name = identifier → ∀ l', o'.loc = some l' → l'.line ≠ t) →
      analyzeTraverse consumer lines identifier (some t) maxReferences (pre ++ rest)
          processed acc
        = analyzeTraverse consumer lines identifier (some t) maxReferences rest
            processed acc := by
  intro pre
  induction pre with
  | nil => intro rest processed acc _; rfl
  | cons o' pre' ih =>
    intro rest processed acc hpre
    have ho' := hpre o' (by simp)
    rw [List.cons_append]
    rw [analyzeTraverse.eq_def]
    by_cases hn : o'.name = identifier
    · have hcheck : ((some t : Option Nat).isSome
          && (match o'.loc with
              | none => true
              | some l => decide (some l.line ≠ (some t : Option Nat)))) = true := by
        cases hl : o'.loc with
        | none => simp
        | some l' =>
          have hne := ho' hn l' hl
          simp [hne]
      dsimp only
      rw [if_neg (not_not_intro hn), if_pos hcheck]
      exact ih rest processed acc (fun x hx => hpre x (List.mem_cons_of_mem _ hx))
    · dsimp only
      rw [if_pos hn]
      exact ih rest processed acc (fun x hx => hpre x (List.mem_cons_of_mem _ hx))

/-- C5 (amended): in targeted mode, when the first occurrence of the
identifier on the target line (in traversal order) is a reference backed by a
binding whose declaring identifier carries a position, `analyzeBindings`
returns exactly one binding, its `hitLocation` is that occurrence's position,
and the traversal short-circuits there: the result does not depend on any
occurrence after it. -/
theorem targeted_hit_first_match
    (consumer : Nat → Nat → OriginalPosition) (code identifier : List Char)
    (maxRefs : Option Nat) (t : Nat) (pre post : List IdentOcc)
    (o : IdentOcc) (l : NodePos) (b : BindingOracle) (dl : NodePos)
    (hpre : ∀ o' ∈ pre, o'.name = identifier → ∀ l', o'.loc = some l' → l'.line ≠ t)
    (hname : o.name = identifier) (hloc : o.loc = some l) (hline : l.line = t)
    (hbind : o.binding = some b) (hdef : b.defLoc = some dl) :
    (analyzeBindings code consumer identifier (AnalyzeOptions.mk maxRefs (some t))
        (pre ++ o :: post)).bindings
      = [BindingInfo.mk b.scopeUid b.kind
          (createLocationInfo consumer (splitLines code) dl.line dl.column)
          ((b.refLocs.filterMap (fun rl =>
              match rl with
              | none => none
              | some l' =>
                  some (createLocationInfo consumer (splitLines code) l'.line l'.column))).take
            (maxRefs.getD 15))
          (b.refLocs.filterMap (fun rl =>
              match rl with
              | none => none
              | some l' =>
                  some (createLocationInfo consumer (splitLines code) l'.line l'.column))).length
          (some (createLocationInfo consumer (splitLines code) l.line l.column))] := by
  unfold analyzeBindings
  dsimp only [Option.isSome_some]
  rw [if_pos rfl]
  rw [analyzeTraverse_skip consumer (splitLines code) identifier t (maxRefs.getD 15)
    pre (o :: post) [] [] hpre]
  rw [analyzeTraverse.eq_def]
  dsimp only
  rw [if_neg (not_not_intro hname)]
  have hcheck : ((some t : Option Nat).isSome
      && (match o.loc with
          | none => true
          | some l' => decide (some l'.line ≠ (some t : Option Nat)))) = false := by
    rw [hloc]
    simp [hline]
  rw [if_neg (by rw [hcheck]; exact Bool.false_ne_true)]
  rw [hbind]
  dsimp only
  rw [if_neg (List.not_mem_nil b.scopeUid)]
  rw [hdef]
  dsimp only
  rw [hloc]
  dsimp only [Option.isSome_some]
  rw [if_pos rfl, if_pos rfl]
  simp

/-- The binding the scope facility reports for `x` in `const x = 1; x;`:
declared at line 1 column 6, referenced at line 1 column 13. -/
def bindingC5 : BindingOracle :=
  BindingOracle.mk 0 "const".data (some (NodePos.mk 1 6)) [some (NodePos.mk 1 13)]

/-- The `Identifier` traversal order of `const x = 1; x;`: the declaring `x`
at (1, 6) is visited before the reference at (1, 13). -/
def occsC5 : List IdentOcc :=
  [IdentOcc.mk "x".data (some (NodePos.mk 1 6)) (some bindingC5),
    IdentOcc.mk "x".data (some (NodePos.mk 1 13)) (some bindingC5)]

/-- C5 as stated fails: in `const x = 1; x;` the target line 1 contains
exactly one reference occurrence of `x` (at column 13), yet the returned
binding's `hitLocation` is the definition at column 6 — the traversal stops
at the first identifier occurrence on the line, which here is the
declaration, not the reference. -/
theorem targeted_hit_counterexample :
    (occsC5.countP (fun o =>
        decide (o.name = "x".data)
          && (match o.loc, o.binding with
              | some l, some b => decide (l.line = 1) && decide (some l ∈ b.refLocs)
              | _, _ => false))) = 1
    ∧ (analyzeBindings "const x = 1; x;".data
          (fun _ _ => OriginalPosition.mk none none) "x".data
          (AnalyzeOptions.mk none (some 1)) occsC5).bindings.map
        (fun bi => bi.hitLocation.map (fun h => (h.line, h.column)))
        = [some (1, 6)]
    ∧ ([some ((1 : Nat), (6 : Nat))] : List (Option (Nat × Nat))) ≠ [some (1, 13)] := by
  refine ⟨by decide, by decide, by decide⟩

/-- Witness for `targeted_hit_first_match`: in the two-line
`const x = 1;\nx;` targeted at line 2, the declaration on line 1 is skipped
and the reference at (2, 0) is the hit. -/
theorem targeted_hit_first_match_witness :
    (∀ o' ∈ [IdentOcc.mk "x".data (some (NodePos.mk 1 6))
        (some (BindingOracle.mk 0 "const".data (some (NodePos.mk 1 6))
          [some (NodePos.mk 2 0)]))],
      o'.name = "x".data → ∀ l', o'.loc = some l' → l'.line ≠ 2)
    ∧ (analyzeBindings "const x = 1;\nx;".data
          (fun _ _ => OriginalPosition.mk none none) "x".data
          (AnalyzeOptions.mk none (some 2))
          ([IdentOcc.mk "x".data (some (NodePos.mk 1 6))
              (some (BindingOracle.mk 0 "const".data (some (NodePos.mk 1 6))
                [some (NodePos.mk 2 0)]))]
            ++ IdentOcc.mk "x".data (some (NodePos.mk 2 0))
                (some (BindingOracle.mk 0 "const".data (some (NodePos.mk 1 6))
                  [some (NodePos.mk 2 0)]))
              :: [])).bindings
      = [BindingInfo.mk 0 "const".data
          (createLocationInfo (fun _ _ => OriginalPosition.mk none none)
            (splitLines "const x = 1;\nx;".data) 1 6)
          (([some (NodePos.mk 2 0)].filterMap (fun rl =>
              match rl with
              | none => none
              | some l' =>
                  some (createLocationInfo (fun _ _ => OriginalPosition.mk none none)
                    (splitLines "const x = 1;\nx;".data) l'.line l'.column))).take
            ((none : Option Nat).getD 15))
          ([some (NodePos.mk 2 0)].filterMap (fun rl =>
              match rl with
              | none => none
              | some l' =>
                  some (createLocationInfo (fun _ _ => OriginalPosition.mk none none)
                    (splitLines "const x = 1;\nx;".data) l'.line l'.column))).length
          (some (createLocationInfo (fun _ _ => OriginalPosition.mk none none)
            (splitLines "const x = 1;\nx;".data) 2 0))] :=
  ⟨by decide,
    targeted_hit_first_match (fun _ _ => OriginalPosition.mk none none)
      "const x = 1;\nx;".data "x".data none 2
      [IdentOcc.mk "x".data (some (NodePos.mk 1 6))
        (some (BindingOracle.mk 0 "const".data (some (NodePos.mk 1 6))
          [some (NodePos.mk 2 0)]))]
      []
      (IdentOcc.mk "x".data (some (NodePos.mk 2 0))
        (some (BindingOracle.mk 0 "const".data (some (NodePos.mk 1 6))
          [some (NodePos.mk 2 0)])))
      (NodePos.mk 2 0)
      (BindingOracle.mk 0 "const".data (some (NodePos.mk 1 6)) [some (NodePos.mk 2 0)])
      (NodePos.mk 1 6)
      (by decide) rfl rfl rfl rfl rfl⟩

end Analyzer

/-! ## Beautifier cache (src/beautifier.ts, the snapshot with the
`saveLocal` option cited by the claims) -/

namespace Beautifier

/-- File stats as returned by `fs.stat`: the modification time in
milliseconds (`stats.mtimeMs`). -/
structure FileStats where
  mtimeMs : Int
deriving DecidableEq, Repr

/-- `LocalCacheCheck` from src/beautifier.ts. -/
structure LocalCacheCheck where
  originalMtime : Int
  beautifiedExists : Bool
  beautifiedMtime : Int
  isValid : Bool
deriving DecidableEq, Repr

/-- `isLocalCacheValid` from src/beautifier.ts.  The two `fs.stat` calls are
oracle arguments: `none` models the catch branch (missing file / stat
failure). -/
def isLocalCacheValid (originalStat beautifiedStat : Option FileStats) :
    LocalCacheCheck :=
  match originalStat with
  | none => LocalCacheCheck.mk 0 false 0 false
  | some os =>
      match beautifiedStat with
      | none => LocalCacheCheck.mk os.mtimeMs false 0 false
      | some bs =>
          LocalCacheCheck.mk os.mtimeMs true bs.mtimeMs
            (decide (bs.mtimeMs ≥ os.mtimeMs))

/-- A beautified payload: output text plus source-map text. -/
structure BeautifyData where
  code : List Char
  mapText : List Char
deriving DecidableEq, Repr

/-- The world one `ensureBeautified` call observes, as oracles: the stats of
the original and of the local beautified file, the readable local-cache
content (`none` models a failed read), the temp-cache entry under the key
`hash(absolutePath, mtimeMs)` built from the CURRENT stats (`none` = miss),
and the esbuild output (`none` models a build failure). -/
structure CacheWorld where
  originalStat : Option FileStats
  beautifiedStat : Option FileStats
  localFiles : Option BeautifyData
  tempFiles : Option BeautifyData
  esbuildOut : Option BeautifyData
deriving DecidableEq, Repr

/-- What an `ensureBeautified` call returned and wrote: the served payload,
whether the temp cache was written, and whether the local beautified file and
map were written. -/
structure EnsureOutcome where
  data : BeautifyData
  wroteTemp : Bool
  wroteLocal : Bool
deriving DecidableEq, Repr

/-- The regeneration path of `ensureBeautified` (after the local-cache check
misses or its read fails): serve the mtime-keyed temp cache if present,
otherwise run esbuild and write the temp cache; with `saveLocal` the result
is also written to the local cache (`saveToLocal`; its write errors are
swallowed into `localSaveError`, which no claim concerns, so writes are
modelled as succeeding). -/
def regenerate (w : CacheWorld) (saveLocal : Bool) :
    Except (List Char) EnsureOutcome :=
  match w.tempFiles with
  | some d => Except.ok (EnsureOutcome.mk d false saveLocal)
  | none =>
      match w.esbuildOut with
      | none => Except.error "Esbuild processing failed".data
      | some d => Except.ok (EnsureOutcome.mk d true saveLocal)

/-- `ensureBeautified` from src/beautifier.ts: missing original file is an
error; with `saveLocal` a valid, readable local cache is served as-is;
otherwise the payload is regenerated (temp cache or esbuild) and the local
cache is overwritten. -/
def ensureBeautified (w : CacheWorld) (saveLocal : Bool) :
    Except (List Char) EnsureOutcome :=
  match w.originalStat with
  | none => Except.error "File not found".data
  | some _ =>
      if saveLocal && (isLocalCacheValid w.originalStat w.beautifiedStat).isValid then
        match w.localFiles with
        | some d => Except.ok (EnsureOutcome.mk d false false)
        | none => regenerate w saveLocal
      else regenerate w saveLocal

/-- C8: when the source file exists, a beautified cache entry is valid if and
only if the beautified file exists with modification time at least the
source's; and when the entry is invalid, `ensureBeautified` (with the local
cache in play) serves a freshly computed payload — the esbuild output, which
any entry under the current `(path, mtime)` temp key must equal — and
overwrites the local cache with it. -/
theorem beautified_cache_validity (os : FileStats) (bstat : Option FileStats)
    (w : CacheWorld) (fresh : BeautifyData)
    (hworig : w.originalStat = some os)
    (hinvalid : (isLocalCacheValid w.originalStat w.beautifiedStat).isValid = false)
    (hcoh : ∀ d, w.tempFiles = some d → d = fresh)
    (hes : w.esbuildOut = some fresh) :
    ((isLocalCacheValid (some os) bstat).isValid = true
        ↔ ∃ bs, bstat = some bs ∧ os.mtimeMs ≤ bs.mtimeMs)
      ∧ ∃ outcome, ensureBeautified w true = Except.ok outcome
          ∧ outcome.data = fresh ∧ outcome.wroteLocal = true := by
  constructor
  · cases bstat with
    | none =>
      simp [isLocalCacheValid]
    | some bs =>
      simp only [isLocalCacheValid, decide_eq_true_eq, ge_iff_le]
      constructor
      · intro h
        exact ⟨bs, rfl, h⟩
      · rintro ⟨bs', hbs', hle⟩
        injection hbs' with hbs'
        subst hbs'
        exact hle
  · unfold ensureBeautified
    rw [hworig] at hinvalid ⊢
    dsimp only
    rw [if_neg (by rw [hinvalid]; simp)]
    unfold regenerate
    cases ht : w.tempFiles with
    | some d =>
      have hd := hcoh d ht
      subst hd
      exact ⟨EnsureOutcome.mk d false true, rfl, rfl, rfl⟩
    | none =>
      rw [hes]
      exact ⟨EnsureOutcome.mk fresh true true, rfl, rfl, rfl⟩

/-- Witness for `beautified_cache_validity`: a stale local entry (mtime 5
against source mtime 10), an empty temp cache and a fresh esbuild output. -/
theorem beautified_cache_validity_witness :
    (CacheWorld.mk (some (FileStats.mk 10)) (some (FileStats.mk 5))
        (some (BeautifyData.mk "old".data "oldmap".data)) none
        (some (BeautifyData.mk "fresh".data "freshmap".data))).originalStat
      = some (FileStats.mk 10)
    ∧ (isLocalCacheValid (some (FileStats.mk 10)) (some (FileStats.mk 5))).isValid
      = false
    ∧ ((isLocalCacheValid (some (FileStats.mk 10)) (some (FileStats.mk 5))).isValid = true
        ↔ ∃ bs, (some (FileStats.mk 5) : Option FileStats) = some bs
            ∧ (FileStats.mk 10).mtimeMs ≤ bs.mtimeMs)
    ∧ ∃ outcome,
        ensureBeautified
            (CacheWorld.mk (some (FileStats.mk 10)) (some (FileStats.mk 5))
              (some (BeautifyData.mk "old".data "oldmap".data)) none
              (some (BeautifyData.mk "fresh".data "freshmap".data)))
            true
          = Except.ok outcome
        ∧ outcome.data = BeautifyData.mk "fresh".data "freshmap".data
        ∧ outcome.wroteLocal = true :=
  ⟨rfl, by decide,
    (beautified_cache_validity (FileStats.mk 10) (some (FileStats.mk 5))
      (CacheWorld.mk (some (FileStats.mk 10)) (some (FileStats.mk 5))
        (some (BeautifyData.mk "old".data "oldmap".data)) none
        (some (BeautifyData.mk "fresh".data "freshmap".data)))
      (BeautifyData.mk "fresh".data "freshmap".data)
      rfl (by decide) (fun d hd => by cases hd) rfl).1,
    (beautified_cache_validity (FileStats.mk 10) (some (FileStats.mk 5))
      (CacheWorld.mk (some (FileStats.mk 10)) (some (FileStats.mk 5))
        (some (BeautifyData.mk "old".data "oldmap".data)) none
        (some (BeautifyData.mk "fresh".data "freshmap".data)))
      (BeautifyData.mk "fresh".data "freshmap".data)
      rfl (by decide) (fun d hd => by cases hd) rfl).2⟩

end Beautifier

end SmartFS
